import Mathlib

/-!
Verification of the CopyCatch iterative clustering engine of the
Fake-Star-Detector repository, together with the helper functions of
`scripts/analysis/get_github_readmes.py`.

The engine itself (`scripts.copycatch.iterative`, imported by
`scripts/copycatch/test.py` through `CopyCatch`, `CopyCatchParams`,
`find_closest_repos`, `run_once`, `run_all`) is not among the supplied
source files; every definition about it below is modelled from the
specification's words, as its doc comment records.  Machine integers are
modelled as `Nat`/`Int`/`Rat`; timestamps are `Int` seconds.
-/

namespace FakeStarDetector

/-- Modelled from the spec: an ingested edge of the bipartite graph,
`(actor_id, target_id, timestamp: int seconds since epoch)`; ids are the
dense integer identifiers GraphIndex assigns. -/
structure Edge where
  actor : ℕ
  target : ℕ
  ts : ℤ
deriving DecidableEq, Repr

/-- Modelled from the spec: the immutable bipartite graph the engine reads,
reduced to its edge table over dense ids (the adjacency views below are
derived from it). -/
structure Graph where
  edges : List Edge
deriving DecidableEq, Repr

/-- Modelled from the spec: the configuration record `CopyCatchParams`
observed in `scripts/copycatch/test.py`: `{delta_t, n, m, rho, beta}`. -/
structure CopyCatchParams where
  delta_t : ℤ
  n : ℕ
  m : ℕ
  rho : ℚ
  beta : ℚ
deriving DecidableEq, Repr

/-- The distinct actors occurring in the edge table. -/
def actorsOf (g : Graph) : Finset ℕ :=
  (g.edges.map Edge.actor).toFinset

/-- The distinct targets occurring in the edge table. -/
def targetsOf (g : Graph) : Finset ℕ :=
  (g.edges.map Edge.target).toFinset

/-- The distinct actors of the edge table as a duplicate-free list. -/
def actorsList (g : Graph) : List ℕ :=
  (g.edges.map Edge.actor).dedup

/-- The distinct targets of the edge table as a duplicate-free list. -/
def targetsList (g : Graph) : List ℕ :=
  (g.edges.map Edge.target).dedup

/-- The distinct actors having an edge into target `t`. -/
def actorsVisiting (g : Graph) (t : ℕ) : Finset ℕ :=
  ((g.edges.filter (fun e => e.target = t)).map Edge.actor).toFinset

/-- Modelled from the spec: the co-occurrence count of target `t` with the
seed: the number of distinct actors shared between `t` and `seed`. -/
def cooc (g : Graph) (seed t : ℕ) : ℕ :=
  (actorsVisiting g seed ∩ actorsVisiting g t).card

/-- Modelled from the spec: the targets co-visited by at least one actor of
the seed, the seed itself excluded. -/
def covisited (g : Graph) (seed : ℕ) : Finset ℕ :=
  ((targetsOf g).erase seed).filter (fun t => 0 < cooc g seed t)

/-- Ranking by a score, highest score first, ties broken by ascending id:
the total order used both for seed selection and target re-selection. -/
def rankRel (f : ℕ → ℕ) (t u : ℕ) : Prop :=
  f u < f t ∨ (f t = f u ∧ t ≤ u)

instance (f : ℕ → ℕ) : DecidableRel (rankRel f) := fun _t _u =>
  inferInstanceAs (Decidable (_ ∨ _))

instance (f : ℕ → ℕ) : IsTrans ℕ (rankRel f) :=
  ⟨fun _ _ _ h h' => by unfold rankRel at *; omega⟩

instance (f : ℕ → ℕ) : IsAntisymm ℕ (rankRel f) :=
  ⟨fun _ _ h h' => by unfold rankRel at *; omega⟩

instance (f : ℕ → ℕ) : IsTotal ℕ (rankRel f) :=
  ⟨fun _ _ => by unfold rankRel; omega⟩

/-- The co-visited targets of the seed as a duplicate-free list. -/
def candidatesList (g : Graph) (seed : ℕ) : List ℕ :=
  (targetsList g).filter (fun t => t ≠ seed ∧ 0 < cooc g seed t)

/-- The co-visited targets of the seed, sorted by descending co-occurrence
count, ties by ascending target id. -/
def rankedCovisited (g : Graph) (seed : ℕ) : List ℕ :=
  (candidatesList g seed).insertionSort (rankRel (cooc g seed))

/-- Modelled from the spec: `find_closest_repos(seed, m)` returns the seed
target plus the `m - 1` highest-co-occurrence targets, ties broken by
ascending target id; when fewer exist it returns all of them. -/
def find_closest_repos (g : Graph) (seed m : ℕ) : Finset ℕ :=
  insert seed ((rankedCovisited g seed).take (m - 1)).toFinset

/-- Actor `a` has an edge to target `t` whose timestamp lies in the half-open
window `[w, w + dt)`. -/
def edgeInWin (g : Graph) (a t : ℕ) (w dt : ℤ) : Prop :=
  ∃ e ∈ g.edges, e.actor = a ∧ e.target = t ∧ w ≤ e.ts ∧ e.ts < w + dt

instance (g : Graph) (a t : ℕ) (w dt : ℤ) : Decidable (edgeInWin g a t w dt) :=
  inferInstanceAs (Decidable (∃ _ ∈ _, _))

/-- The number of distinct targets of `T` that actor `a` reaches within the
window `[w, w + dt)`. -/
def windowHits (g : Graph) (dt : ℤ) (a : ℕ) (T : Finset ℕ) (w : ℤ) : ℕ :=
  (T.filter (fun t => edgeInWin g a t w dt)).card

/-- The candidate window starts for actor `a` against target set `T`: the
distinct timestamps of the actor's edges into `T`, ascending. -/
def tsCandidates (g : Graph) (a : ℕ) (T : Finset ℕ) : List ℤ :=
  (((g.edges.filter (fun e => e.actor = a ∧ e.target ∈ T)).map Edge.ts).dedup).insertionSort (· ≤ ·)

/-- First-maximum selection over a candidate list: keeps the current best
window start unless a strictly better one appears later. -/
def pickBest (f : ℤ → ℕ) : List ℤ → ℤ → ℤ
  | [], w => w
  | c :: cs, w => pickBest f cs (if f w < f c then c else w)

/-- Modelled from the spec: the start of the maximum-count window of fixed
length `dt` over actor `a`'s edges restricted to `T` (the sliding-window
scan); of equally good windows the earliest start is kept.  `0` when the
actor has no edge into `T` (such an actor is never considered). -/
def bestWindowStart (g : Graph) (dt : ℤ) (a : ℕ) (T : Finset ℕ) : ℤ :=
  match tsCandidates g a T with
  | [] => 0
  | c :: cs => pickBest (fun w => windowHits g dt a T w) cs c

/-- Actor `a` has at least one edge into the target set `T`. -/
def hasEdgeInto (g : Graph) (a : ℕ) (T : Finset ℕ) : Prop :=
  ∃ e ∈ g.edges, e.actor = a ∧ e.target ∈ T

instance (g : Graph) (a : ℕ) (T : Finset ℕ) : Decidable (hasEdgeInto g a T) :=
  inferInstanceAs (Decidable (∃ _ ∈ _, _))

/-- Modelled from the spec: the density acceptance test `hits / |target_set|
≥ rho`, with the guard that an empty target set short-circuits to rejection
rather than computing a ratio.  Stated in the cross-multiplied integer form
(`densityOK_iff` below proves it equal to the ratio form). -/
def densityOK (p : CopyCatchParams) (hits Tcard : ℕ) : Prop :=
  Tcard ≠ 0 ∧ p.rho.num * (Tcard : ℤ) ≤ (hits : ℤ) * (p.rho.den : ℤ)

instance (p : CopyCatchParams) (hits Tcard : ℕ) : Decidable (densityOK p hits Tcard) :=
  inferInstanceAs (Decidable (_ ∧ _))

/-- Modelled from the spec: the actor assignment step.  Every actor with at
least one edge into the current target set joins the new actor set iff the
distinct current targets reachable within its best window of length
`delta_t`, divided by the target-set size, reach `rho`. -/
def actorStep (g : Graph) (p : CopyCatchParams) (T : Finset ℕ) : Finset ℕ :=
  (actorsOf g).filter (fun a =>
    hasEdgeInto g a T ∧
      densityOK p (windowHits g p.delta_t a T (bestWindowStart g p.delta_t a T)) T.card)

/-- How many member actors of `A` include target `t` within their own best
window (windows computed against the target set `Tprev` of the assignment
step). -/
def targetCount (g : Graph) (p : CopyCatchParams) (A : Finset ℕ) (Tprev : Finset ℕ)
    (t : ℕ) : ℕ :=
  (A.filter (fun a => edgeInWin g a t (bestWindowStart g p.delta_t a Tprev) p.delta_t)).card

/-- Modelled from the spec: the target re-selection step.  Keep the `m`
targets of highest member count (ties: ascending target id), only targets
of nonzero count being kept. -/
def targetStep (g : Graph) (p : CopyCatchParams) (A : Finset ℕ) (Tprev : Finset ℕ) :
    Finset ℕ :=
  ((((targetsList g).filter (fun t => 0 < targetCount g p A Tprev t)).insertionSort
      (rankRel (targetCount g p A Tprev))).take p.m).toFinset

/-- The refinement loop's state: the current actor set, the current target
set, and the target set the actors' recorded windows were computed against. -/
structure RState where
  A : Finset ℕ
  T : Finset ℕ
  Tw : Finset ℕ
deriving DecidableEq

/-- Modelled from the spec: one iteration of the refinement loop: the actor
assignment step against the current target set, then the target re-selection
step over the new actor set. -/
def stepState (g : Graph) (p : CopyCatchParams) (s : RState) : RState :=
  ⟨actorStep g p s.T, targetStep g p (actorStep g p s.T) s.T, s.T⟩

/-- Modelled from the spec: the iteration cap `⌈beta * max(n, m)⌉`, written
in integer arithmetic (`capOf_eq` below proves it equal to the ceiling). -/
def capOf (p : CopyCatchParams) : ℕ :=
  if p.beta.num ≤ 0 then 0
  else (p.beta.num.toNat * max p.n p.m + p.beta.den - 1) / p.beta.den

/-- The refinement loop on explicit fuel.  Returns the final state, the
number of iterations performed, and whether the pair (actor set, target set)
was unchanged between consecutive iterations (convergence). -/
def loopAux (g : Graph) (p : CopyCatchParams) : ℕ → RState → RState × ℕ × Bool
  | 0, s => (s, 0, false)
  | fuel + 1, s =>
    let s' := stepState g p s
    if s'.A = s.A ∧ s'.T = s.T then (s', 1, true)
    else
      let r := loopAux g p fuel s'
      (r.1, r.2.1 + 1, r.2.2)

/-- Modelled from the spec: the whole refinement loop from an initial target
set (initial actor set empty), run until convergence or the iteration cap. -/
def runLoop (g : Graph) (p : CopyCatchParams) (T0 : Finset ℕ) : RState × ℕ × Bool :=
  loopAux g p (capOf p) ⟨∅, T0, T0⟩

/-- The final state the refinement loop evaluates for acceptance. -/
def finalState (g : Graph) (p : CopyCatchParams) (T0 : Finset ℕ) : RState :=
  (runLoop g p T0).1

/-- Whether the refinement loop converged rather than hitting the cap. -/
def loopConverged (g : Graph) (p : CopyCatchParams) (T0 : Finset ℕ) : Bool :=
  (runLoop g p T0).2.2

/-- Modelled from the spec: an emitted cluster record: actor ids, target
ids, and per member actor its recorded window `[start, start + delta_t)`. -/
structure CResult where
  actor_ids : Finset ℕ
  target_ids : Finset ℕ
  windows : List (ℕ × ℤ × ℤ)
deriving DecidableEq

/-- Modelled from the spec: `run_once(initial_targets)`: run the refinement
loop, then accept the final state as a `ClusterResult` iff `|actor_ids| ≥ n`
and `|target_ids| ≥ m`, and otherwise return `Empty` (here `none`).  Each
member actor's recorded window starts at its best window start against the
target set of its assignment step. -/
def sortedMembers (g : Graph) (A : Finset ℕ) : List ℕ :=
  ((actorsList g).filter (fun a => a ∈ A)).insertionSort (· ≤ ·)

def run_once (g : Graph) (p : CopyCatchParams) (T0 : Finset ℕ) : Option CResult :=
  let s := finalState g p T0
  if p.n ≤ s.A.card ∧ p.m ≤ s.T.card then
    some ⟨s.A, s.T,
      (sortedMembers g s.A).map (fun a =>
        (a, bestWindowStart g p.delta_t a s.Tw,
          bestWindowStart g p.delta_t a s.Tw + p.delta_t))⟩
  else none

/-- Modelled from the spec: the Jaccard overlap of two actor sets,
`|A ∩ B| / |A ∪ B|` (0 for two empty sets). -/
def jaccard (A B : Finset ℕ) : ℚ :=
  if (A ∪ B).card = 0 then 0 else ((A ∩ B).card : ℚ) / ((A ∪ B).card : ℚ)

/-- Modelled from the spec: two non-Empty results are merged if their
canonical signatures (actor set, target set) are identical, or if the
Jaccard overlap of their actor sets exceeds the fixed threshold `0.8`. -/
def mergeable (r s : CResult) : Prop :=
  (r.actor_ids = s.actor_ids ∧ r.target_ids = s.target_ids) ∨
    (4 : ℚ) / 5 < jaccard r.actor_ids s.actor_ids

instance (r s : CResult) : Decidable (mergeable r s) :=
  inferInstanceAs (Decidable (_ ∨ _))

/-- The dedup pass over the remaining results, the kept representatives
accumulated in reverse: a result mergeable with an already-kept one is
dropped, otherwise it is kept. -/
def dedupAux (acc : List CResult) : List CResult → List CResult
  | [] => acc.reverse
  | r :: rest =>
    if acc.any (fun s => decide (mergeable r s)) then dedupAux acc rest
    else dedupAux (r :: acc) rest

/-- Modelled from the spec: ResultDedup keeps one result per equivalence
class, first-seen order. -/
def resultDedup (l : List CResult) : List CResult :=
  dedupAux [] l

/-- Modelled from the spec: the deterministic seed order of the
orchestrator: one seed per distinct target, ascending target id. -/
def defaultSeedOrder (g : Graph) : List ℕ :=
  (targetsList g).insertionSort (· ≤ ·)

/-- Modelled from the spec: `run_all` over an explicit seed order (the order
is ascending target ids unless an explicit random seed is supplied): each
seed's initial target set is `find_closest_repos(seed, m)`, the non-Empty
results are collected in seed order and deduplicated. -/
def run_all (g : Graph) (p : CopyCatchParams) (order : List ℕ) : List CResult :=
  resultDedup (order.filterMap (fun t => run_once g p (find_closest_repos g t p.m)))

/-! ### GraphIndex construction from raw rows -/

/-- Modelled from the spec: a raw edge row as the ingestion sees it: the
actor field, the target field, and the timestamp, each possibly missing
(`none` also stands for an unparsable timestamp). -/
structure RawRow where
  actor : Option String
  target : Option String
  ts : Option ℤ
deriving DecidableEq

/-- Modelled from the spec: a row parses iff it has an actor, a target and a
parseable non-negative timestamp. -/
def parseRow (r : RawRow) : Option (String × String × ℤ) :=
  match r.actor, r.target, r.ts with
  | some a, some t, some ts => if 0 ≤ ts then some (a, t, ts) else none
  | _, _, _ => none

/-- Modelled from the spec: the GraphIndex arena: actor and target names in
first-appearance order (a name's index is its dense id) and the ingested
edge table over those ids. -/
structure GraphIndex where
  actorNames : List String
  targetNames : List String
  edges : List Edge
deriving DecidableEq

/-- The empty GraphIndex. -/
def GraphIndex.empty : GraphIndex := ⟨[], [], []⟩

/-- Look a name up in the arena, appending it with the next dense id when it
is new: returns the id and the updated arena. -/
def internName (names : List String) (nm : String) : ℕ × List String :=
  match names.findIdx? (fun s => s = nm) with
  | some i => (i, names)
  | none => (names.length, names ++ [nm])

/-- Ingest one well-formed row into the GraphIndex. -/
def GraphIndex.ingest (gi : GraphIndex) (row : String × String × ℤ) : GraphIndex :=
  let (aid, anames) := internName gi.actorNames row.1
  let (tid, tnames) := internName gi.targetNames row.2.1
  ⟨anames, tnames, gi.edges ++ [⟨aid, tid, row.2.2⟩]⟩

/-- Modelled from the spec: `GraphIndex.build`: every malformed row is
dropped (and logged) and processing continues with the next row; nothing is
fatal. -/
def GraphIndex.build (rows : List RawRow) : GraphIndex :=
  rows.foldl
    (fun gi r =>
      match parseRow r with
      | some e => gi.ingest e
      | none => gi)
    GraphIndex.empty

/-- GraphIndex construction from rows already known to be well-formed. -/
def GraphIndex.buildWF (ws : List (String × String × ℤ)) : GraphIndex :=
  ws.foldl GraphIndex.ingest GraphIndex.empty

/-! ### The helper functions of `scripts/analysis/get_github_readmes.py`

These two are present in the sources; the GitHub client call inside the
`try` block is modelled as an oracle returning either a value or the raised
exception's message. -/

/-- Function `get_github_readme` of `scripts/analysis/get_github_readmes.py`: the
body calls the GitHub API for the repository's README content inside a
`try` block; any exception is caught, logged and turned into `None`. -/
def get_github_readme (fetch : String → Except String String) (repo : String) :
    Option String :=
  match fetch repo with
  | Except.ok content => some content
  | Except.error _ => none

/-- Function `get_repo_size` of `scripts/analysis/get_github_readmes.py`: the body
asks the GitHub API for the repository's size inside a `try` block; any
exception is caught, logged and turned into `None`. -/
def get_repo_size (fetch : String → Except String ℕ) (repo : String) :
    Option ℕ :=
  match fetch repo with
  | Except.ok size => some size
  | Except.error _ => none

/-! ### Bridging lemmas: the integer forms equal the spec's rational forms -/

lemma rat_le_div_iff (q : ℚ) (h c : ℕ) (hc : c ≠ 0) :
    q.num * (c : ℤ) ≤ (h : ℤ) * (q.den : ℤ) ↔ q ≤ (h : ℚ) / (c : ℚ) := by
  have hc' : (0 : ℚ) < (c : ℚ) := by exact_mod_cast Nat.pos_of_ne_zero hc
  have hd : (0 : ℚ) < (q.den : ℚ) := by exact_mod_cast q.pos
  rw [le_div_iff₀ hc']
  conv_rhs => rw [← Rat.num_div_den q]
  rw [div_mul_eq_mul_div, div_le_iff₀ hd]
  exact_mod_cast Iff.rfl

/-- The integer form of the density test is exactly the spec's
`hits / |target_set| ≥ rho` with the empty-set guard. -/
lemma densityOK_iff (p : CopyCatchParams) (hits Tcard : ℕ) :
    densityOK p hits Tcard ↔ Tcard ≠ 0 ∧ p.rho ≤ (hits : ℚ) / (Tcard : ℚ) := by
  unfold densityOK
  exact and_congr_right fun hc => rat_le_div_iff p.rho hits Tcard hc

/-- The integer form of the iteration cap is exactly the spec's
`⌈beta * max(n, m)⌉`. -/
lemma capOf_eq (p : CopyCatchParams) : capOf p = ⌈p.beta * ((max p.n p.m : ℕ) : ℚ)⌉₊ := by
  unfold capOf
  set M : ℕ := max p.n p.m with hM
  by_cases hb : p.beta.num ≤ 0
  · rw [if_pos hb]
    refine (Nat.ceil_eq_zero.mpr ?_).symm
    have hbeta : p.beta ≤ 0 := Rat.num_nonpos.mp hb
    exact mul_nonpos_of_nonpos_of_nonneg hbeta (by positivity)
  · rw [if_neg hb]
    push_neg at hb
    have hdpos : 0 < p.beta.den := p.beta.pos
    have aux : ∀ k : ℕ, (p.beta.num.toNat * M + p.beta.den - 1) / p.beta.den ≤ k ↔
        p.beta * (M : ℚ) ≤ (k : ℚ) := by
      intro k
      rw [Nat.div_le_iff_le_mul_add_pred hdpos]
      have h1 : p.beta.num.toNat * M + p.beta.den - 1 ≤ p.beta.den * k + (p.beta.den - 1) ↔
          p.beta.num.toNat * M ≤ p.beta.den * k := by omega
      rw [h1]
      have h2 : p.beta * (M : ℚ) ≤ (k : ℚ) ↔
          p.beta.num * (M : ℤ) ≤ (k : ℤ) * (p.beta.den : ℤ) := by
        conv_lhs => rw [← Rat.num_div_den p.beta]
        rw [div_mul_eq_mul_div,
          div_le_iff₀ (by exact_mod_cast p.beta.pos : (0 : ℚ) < (p.beta.den : ℚ))]
        exact_mod_cast Iff.rfl
      rw [h2]
      have h3 : (p.beta.num.toNat : ℤ) = p.beta.num := Int.toNat_of_nonneg (le_of_lt hb)
      constructor
      · intro h
        have h4 := (Int.ofNat_le.mpr h)
        push_cast at h4
        rw [← h3]
        linarith
      · intro h
        rw [← h3] at h
        have h4 : (p.beta.num.toNat * M : ℤ) ≤ (p.beta.den * k : ℤ) := by
          linarith
        exact_mod_cast h4
    exact le_antisymm ((aux _).mpr (Nat.le_ceil _)) (Nat.ceil_le.mpr ((aux _).mp le_rfl))

/-! ### Concrete instances used by the closed theorems and witnesses -/

/-- The three-actor scenario of the spec's testable property: actors 0, 1, 2
each star target 0 (A) and target 1 (B) within a 10-day span (timestamps in
seconds, one or two days apart). -/
def gScenario : Graph :=
  ⟨[⟨0, 0, 0⟩, ⟨0, 1, 86400⟩, ⟨1, 0, 172800⟩, ⟨1, 1, 259200⟩,
    ⟨2, 0, 345600⟩, ⟨2, 1, 432000⟩]⟩

/-- The scenario's parameters: `delta_t` = 30 days of seconds, n = 3, m = 2,
rho = 1; `beta` (unspecified by the scenario) = 2, as in
`scripts/copycatch/test.py`. -/
def pScenario : CopyCatchParams :=
  ⟨2592000, 3, 2, mkRat 1 1, mkRat 2 1⟩

/-- The cluster `run_once` emits on the scenario. -/
def rScenario : CResult :=
  ⟨{0, 1, 2}, {0, 1},
    [(0, 0, 2592000), (1, 172800, 2764800), (2, 345600, 2937600)]⟩

/-- Equation form of `run_once` with its let-binding unfolded. -/
lemma run_once_eq (g : Graph) (p : CopyCatchParams) (T0 : Finset ℕ) :
    run_once g p T0 =
      if p.n ≤ (finalState g p T0).A.card ∧ p.m ≤ (finalState g p T0).T.card then
        some ⟨(finalState g p T0).A, (finalState g p T0).T,
          (sortedMembers g (finalState g p T0).A).map (fun a =>
            (a, bestWindowStart g p.delta_t a (finalState g p T0).Tw,
              bestWindowStart g p.delta_t a (finalState g p T0).Tw + p.delta_t))⟩
      else none := rfl

/-! ### C1 -/

/-- C1: `run_once` returns a `ClusterResult` iff the final state after the
refinement loop satisfies `|actor_ids| ≥ n` and `|target_ids| ≥ m`, and
otherwise returns Empty (`none`); consequently every emitted result has
`|actor_ids| ≥ n` and `|target_ids| ≥ m`. -/
theorem c1_run_once_acceptance (g : Graph) (p : CopyCatchParams) (T0 : Finset ℕ) :
    ((∃ r, run_once g p T0 = some r) ↔
      p.n ≤ (finalState g p T0).A.card ∧ p.m ≤ (finalState g p T0).T.card) ∧
    (∀ r, run_once g p T0 = some r →
      p.n ≤ r.actor_ids.card ∧ p.m ≤ r.target_ids.card) := by
  rw [run_once_eq]
  by_cases h : p.n ≤ (finalState g p T0).A.card ∧ p.m ≤ (finalState g p T0).T.card
  · rw [if_pos h]
    refine ⟨⟨fun _ => h, fun _ => ⟨_, rfl⟩⟩, fun r hr => ?_⟩
    cases hr
    exact h
  · rw [if_neg h]
    exact ⟨⟨fun ⟨r, hr⟩ => (by cases hr), fun hh => absurd hh h⟩, fun r hr => (by cases hr)⟩

/-! ### C3 -/

/-- C3: on the scenario where 3 actors each star targets A (id 0) and B
(id 1) within a 10-day span, with `delta_t` = 30 days, n = 3, m = 2,
rho = 1, `run_once` seeded with target A returns exactly
`actor_ids = {0, 1, 2}` and `target_ids = {0, 1}`. -/
theorem c3_scenario_cluster :
    ∃ r, run_once gScenario pScenario (find_closest_repos gScenario 0 pScenario.m) = some r ∧
      r.actor_ids = {0, 1, 2} ∧ r.target_ids = {0, 1} :=
  ⟨rScenario, by decide, by decide, by decide⟩

/-! ### C9 -/

/-- C9: every window recorded in an emitted cluster record is the half-open
interval `[start, start + delta_t)`: its end minus its start is exactly
`delta_t`. -/
theorem c9_window_length (g : Graph) (p : CopyCatchParams) (T0 : Finset ℕ)
    (r : CResult) (hr : run_once g p T0 = some r) :
    ∀ a ws we, (a, ws, we) ∈ r.windows → we - ws = p.delta_t := by
  rw [run_once_eq] at hr
  split at hr
  · cases hr
    intro a ws we hmem
    simp only [List.mem_map] at hmem
    obtain ⟨a0, -, heq⟩ := hmem
    simp only [Prod.mk.injEq] at heq
    omega
  · cases hr

/-- Witness for C9 at the concrete scenario. -/
theorem c9_window_length_witness :
    run_once gScenario pScenario {0, 1} = some rScenario ∧
      (∀ a ws we, (a, ws, we) ∈ rScenario.windows → we - ws = pScenario.delta_t) :=
  ⟨by decide, c9_window_length gScenario pScenario {0, 1} rScenario (by decide)⟩

/-! ### The refinement loop's behaviour (C5 and the convergence invariant) -/

/-- The loop performs at most `fuel` iterations; when it reports
convergence, the final state is a fixed point of the iteration on the pair
(actor set, target set), its recorded-window basis is its own target set and
its actor set is the assignment step of its target set; when it does not,
it used its fuel exactly. -/
lemma loopAux_spec (g : Graph) (p : CopyCatchParams) :
    ∀ fuel s,
      (loopAux g p fuel s).2.1 ≤ fuel ∧
      ((loopAux g p fuel s).2.2 = true →
        (stepState g p (loopAux g p fuel s).1).A = (loopAux g p fuel s).1.A ∧
        (stepState g p (loopAux g p fuel s).1).T = (loopAux g p fuel s).1.T ∧
        (loopAux g p fuel s).1.Tw = (loopAux g p fuel s).1.T ∧
        (loopAux g p fuel s).1.A = actorStep g p (loopAux g p fuel s).1.T) ∧
      ((loopAux g p fuel s).2.2 = false → (loopAux g p fuel s).2.1 = fuel) := by
  intro fuel
  induction fuel with
  | zero =>
    intro s
    exact ⟨le_rfl, fun h => (by cases h), fun _ => rfl⟩
  | succ k ih =>
    intro s
    rw [loopAux]
    by_cases hc : (stepState g p s).A = s.A ∧ (stepState g p s).T = s.T
    · rw [if_pos hc]
      have hT : (stepState g p s).T = s.T := hc.2
      refine ⟨(by show 1 ≤ k + 1; omega), fun _ => ⟨?_, ?_, ?_, ?_⟩,
        fun h => (by cases h)⟩
      · show actorStep g p (stepState g p s).T = (stepState g p s).A
        rw [hT]
        rfl
      · show targetStep g p (actorStep g p (stepState g p s).T) (stepState g p s).T =
          (stepState g p s).T
        rw [hT]
        exact hc.2
      · show (stepState g p s).Tw = (stepState g p s).T
        rw [hT]
        rfl
      · show (stepState g p s).A = actorStep g p (stepState g p s).T
        rw [hT]
        rfl
    · rw [if_neg hc]
      obtain ⟨h1, h2, h3⟩ := ih (stepState g p s)
      refine ⟨?_, h2, fun h => ?_⟩
      · show (loopAux g p k (stepState g p s)).2.1 + 1 ≤ k + 1
        omega
      · show (loopAux g p k (stepState g p s)).2.1 + 1 = k + 1
        rw [h3 h]

/-! ### C5 -/

/-- C5: for every initial target set the refinement loop terminates: it
performs at most `⌈beta * max(n, m)⌉` iterations; if it stops reporting
convergence, the final state is unchanged by a further iteration (the pair
(actor set, target set) is a fixed point), and otherwise it stopped exactly
at the iteration cap. -/
theorem c5_loop_terminates (g : Graph) (p : CopyCatchParams) (T0 : Finset ℕ) :
    (runLoop g p T0).2.1 ≤ ⌈p.beta * ((max p.n p.m : ℕ) : ℚ)⌉₊ ∧
    ((runLoop g p T0).2.2 = true →
      (stepState g p (finalState g p T0)).A = (finalState g p T0).A ∧
      (stepState g p (finalState g p T0)).T = (finalState g p T0).T) ∧
    ((runLoop g p T0).2.2 = false →
      (runLoop g p T0).2.1 = ⌈p.beta * ((max p.n p.m : ℕ) : ℚ)⌉₊) := by
  obtain ⟨h1, h2, h3⟩ := loopAux_spec g p (capOf p) ⟨∅, T0, T0⟩
  rw [← capOf_eq]
  exact ⟨h1, fun hc => ⟨(h2 hc).1, (h2 hc).2.1⟩, h3⟩

/-- At convergence the final state records windows against its own target
set and its actor set is the assignment step of its own target set. -/
lemma converged_finalState (g : Graph) (p : CopyCatchParams) (T0 : Finset ℕ)
    (h : loopConverged g p T0 = true) :
    (finalState g p T0).Tw = (finalState g p T0).T ∧
    (finalState g p T0).A = actorStep g p (finalState g p T0).T := by
  obtain ⟨-, h2, -⟩ := loopAux_spec g p (capOf p) ⟨∅, T0, T0⟩
  exact ⟨(h2 h).2.2.1, (h2 h).2.2.2⟩

/-! ### C2 -/

/-- C2 (amended): for every `ClusterResult` emitted by a `run_once` whose
refinement loop converged, every member actor's recorded window covers a
fraction of the result's target set of at least `rho`; and every member
actor has a recorded window.  (The counterexample below shows the claim
fails for results emitted at the iteration cap without convergence, whose
windows were recorded against the pre-re-selection target set.) -/
theorem c2_density_of_converged (g : Graph) (p : CopyCatchParams) (T0 : Finset ℕ)
    (r : CResult) (hr : run_once g p T0 = some r)
    (hconv : loopConverged g p T0 = true) :
    (∀ a ws we, (a, ws, we) ∈ r.windows →
      p.rho ≤ (windowHits g p.delta_t a r.target_ids ws : ℚ) /
        (r.target_ids.card : ℚ)) ∧
    (∀ a ∈ r.actor_ids, ∃ ws we, (a, ws, we) ∈ r.windows) := by
  obtain ⟨hTw, hA⟩ := converged_finalState g p T0 hconv
  rw [run_once_eq] at hr
  split at hr
  · cases hr
    constructor
    · intro a ws we hmem
      simp only [List.mem_map] at hmem
      obtain ⟨a0, ha0, heq⟩ := hmem
      simp only [Prod.mk.injEq] at heq
      obtain ⟨rfl, hws, -⟩ := heq
      rw [hTw] at hws
      have haA : a0 ∈ (finalState g p T0).A := by
        have h1 := (List.mem_insertionSort (α := ℕ) (· ≤ ·)).mp ha0
        simp only [List.mem_filter, decide_eq_true_eq] at h1
        exact h1.2
      rw [hA] at haA
      have hdens := (Finset.mem_filter.mp haA).2.2
      rw [densityOK_iff] at hdens
      rw [← hws, hTw]
      exact hdens.2
    · intro a ha
      refine ⟨_, _, List.mem_map.mpr ⟨a, ?_, rfl⟩⟩
      apply (List.mem_insertionSort (α := ℕ) (· ≤ ·)).mpr
      simp only [List.mem_filter, decide_eq_true_eq]
      refine ⟨?_, ha⟩
      have haA := ha
      rw [hA] at haA
      have h1 := (Finset.mem_filter.mp haA).1
      unfold actorsOf at h1
      unfold actorsList
      rw [List.mem_dedup]
      exact List.mem_toFinset.mp h1
  · cases hr

/-- The graph of the C2 counterexample: actor 0 stars only target 0 at time
0; actor 1 stars targets 0, 1 at time 100 and target 2 at time 105. -/
def gCex : Graph :=
  ⟨[⟨0, 0, 0⟩, ⟨1, 0, 100⟩, ⟨1, 1, 100⟩, ⟨1, 2, 105⟩]⟩

/-- Parameters of the C2 counterexample: `delta_t` = 10, n = 1, m = 2,
rho = 3/5, beta = 1/2 (iteration cap `⌈(1/2) * 2⌉ = 1`, so the loop stops at
the cap after one iteration, not converged). -/
def pCex : CopyCatchParams := ⟨10, 1, 2, mkRat 3 5, mkRat 1 2⟩

/-- The cluster `run_once` emits in the C2 counterexample. -/
def rCex : CResult := ⟨{0, 1}, {0, 1}, [(0, 0, 10), (1, 100, 110)]⟩

/-- Counterexample to C2 as stated: seeded with `{0}`, `run_once` stops at
the iteration cap, emits the cluster with actors `{0, 1}` and targets
`{0, 1}`, and records window `[0, 10)` for actor 0, which covers only 1 of
the 2 result targets — a fraction 1/2 below rho = 3/5. -/
theorem c2_density_counterexample :
    run_once gCex pCex {0} = some rCex ∧ (0, 0, 10) ∈ rCex.windows ∧
      ¬ pCex.rho ≤ (windowHits gCex pCex.delta_t 0 rCex.target_ids 0 : ℚ) /
        (rCex.target_ids.card : ℚ) := by
  refine ⟨by decide, by decide, ?_⟩
  have hW : windowHits gCex pCex.delta_t 0 rCex.target_ids 0 = 1 := by decide
  have hc : rCex.target_ids.card = 2 := by decide
  rw [hW, hc]
  intro hle
  have hint := (rat_le_div_iff pCex.rho 1 2 (by decide)).mpr hle
  have hnum : pCex.rho.num = 3 := by decide
  have hden : pCex.rho.den = 5 := by decide
  rw [hnum, hden] at hint
  omega

/-- Witness for the amended C2 at the converged concrete scenario. -/
theorem c2_density_of_converged_witness :
    (run_once gScenario pScenario {0, 1} = some rScenario ∧
      loopConverged gScenario pScenario {0, 1} = true) ∧
    ((∀ a ws we, (a, ws, we) ∈ rScenario.windows →
        pScenario.rho ≤
          (windowHits gScenario pScenario.delta_t a rScenario.target_ids ws : ℚ) /
            (rScenario.target_ids.card : ℚ)) ∧
      (∀ a ∈ rScenario.actor_ids, ∃ ws we, (a, ws, we) ∈ rScenario.windows)) :=
  ⟨⟨by decide, by decide⟩,
    c2_density_of_converged gScenario pScenario {0, 1} rScenario (by decide) (by decide)⟩

/-! ### C4 -/

lemma candidatesList_nodup (g : Graph) (seed : ℕ) : (candidatesList g seed).Nodup :=
  (List.nodup_dedup _).filter _

lemma rankedCovisited_perm (g : Graph) (seed : ℕ) :
    List.Perm (rankedCovisited g seed) (candidatesList g seed) :=
  List.perm_insertionSort _ _

lemma rankedCovisited_nodup (g : Graph) (seed : ℕ) : (rankedCovisited g seed).Nodup :=
  ((rankedCovisited_perm g seed).nodup_iff).mpr (candidatesList_nodup g seed)

lemma mem_candidatesList (g : Graph) (seed t : ℕ) :
    t ∈ candidatesList g seed ↔ t ∈ targetsOf g ∧ t ≠ seed ∧ 0 < cooc g seed t := by
  unfold candidatesList targetsList targetsOf
  simp [List.mem_filter, List.mem_dedup, List.mem_toFinset]

lemma covisited_eq_toFinset (g : Graph) (seed : ℕ) :
    covisited g seed = (candidatesList g seed).toFinset := by
  ext t
  rw [List.mem_toFinset, mem_candidatesList]
  unfold covisited
  simp only [Finset.mem_filter, Finset.mem_erase]
  tauto

lemma covisited_card_eq (g : Graph) (seed : ℕ) :
    (covisited g seed).card = (rankedCovisited g seed).length := by
  rw [covisited_eq_toFinset,
    List.toFinset_card_of_nodup (candidatesList_nodup g seed),
    (rankedCovisited_perm g seed).length_eq]

lemma seed_not_mem_rankedCovisited (g : Graph) (seed : ℕ) :
    seed ∉ rankedCovisited g seed := fun h => by
  have := (mem_candidatesList g seed seed).mp ((rankedCovisited_perm g seed).mem_iff.mp h)
  exact this.2.1 rfl

/-- C4: for every seed and every `m ≥ 1`, `find_closest_repos(seed, m)`
contains the seed and has at most `m` elements; it has exactly `m` elements
whenever at least `m - 1` co-visited targets exist; when the reachable
neighborhood (seed plus co-visited targets) has fewer than `m` targets it
returns all of them; and the selection takes the highest co-occurrence
counts, ties broken by ascending target id. -/
theorem c4_find_closest_repos (g : Graph) (seed m : ℕ) (hm : 1 ≤ m) :
    seed ∈ find_closest_repos g seed m ∧
    (find_closest_repos g seed m).card ≤ m ∧
    (m - 1 ≤ (covisited g seed).card → (find_closest_repos g seed m).card = m) ∧
    ((covisited g seed).card < m - 1 →
      find_closest_repos g seed m = insert seed (covisited g seed)) ∧
    (∀ t ∈ find_closest_repos g seed m, t ≠ seed →
      ∀ u ∈ covisited g seed, u ∉ find_closest_repos g seed m →
        cooc g seed u < cooc g seed t ∨
          (cooc g seed u = cooc g seed t ∧ t < u)) := by
  have hKsub : List.Sublist ((rankedCovisited g seed).take (m - 1))
      (rankedCovisited g seed) :=
    List.take_sublist _ _
  have hKnodup : ((rankedCovisited g seed).take (m - 1)).Nodup :=
    hKsub.nodup (rankedCovisited_nodup g seed)
  have hseedK : seed ∉ ((rankedCovisited g seed).take (m - 1)).toFinset := by
    rw [List.mem_toFinset]
    exact fun h => seed_not_mem_rankedCovisited g seed (hKsub.mem h)
  refine ⟨Finset.mem_insert_self _ _, ?_, ?_, ?_, ?_⟩
  · calc (find_closest_repos g seed m).card
        ≤ ((rankedCovisited g seed).take (m - 1)).toFinset.card + 1 :=
          Finset.card_insert_le _ _
      _ ≤ ((rankedCovisited g seed).take (m - 1)).length + 1 := by
          have := List.toFinset_card_le (l := (rankedCovisited g seed).take (m - 1))
          omega
      _ ≤ m := by
          have := List.length_take (m - 1) (rankedCovisited g seed)
          omega
  · intro hge
    rw [covisited_card_eq] at hge
    unfold find_closest_repos
    rw [Finset.card_insert_of_not_mem hseedK,
      List.toFinset_card_of_nodup hKnodup, List.length_take]
    omega
  · intro hlt
    rw [covisited_card_eq] at hlt
    unfold find_closest_repos
    rw [List.take_of_length_le (by omega), covisited_eq_toFinset,
      List.toFinset_eq_of_perm _ _ (rankedCovisited_perm g seed)]
  · intro t ht htne u hu hunot
    have htK : t ∈ (rankedCovisited g seed).take (m - 1) := by
      rcases Finset.mem_insert.mp ht with h | h
      · exact absurd h htne
      · exact List.mem_toFinset.mp h
    have huL : u ∈ rankedCovisited g seed :=
      (rankedCovisited_perm g seed).mem_iff.mpr
        (List.mem_toFinset.mp (covisited_eq_toFinset g seed ▸ hu))
    have huD : u ∈ (rankedCovisited g seed).drop (m - 1) := by
      rcases (List.mem_append.mp
        (by rw [List.take_append_drop]; exact huL :
          u ∈ (rankedCovisited g seed).take (m - 1) ++
            (rankedCovisited g seed).drop (m - 1))) with h | h
      · exact absurd (Finset.mem_insert_of_mem (List.mem_toFinset.mpr h)) hunot
      · exact h
    have hsorted : List.Sorted (rankRel (cooc g seed)) (rankedCovisited g seed) :=
      List.sorted_insertionSort _ _
    have hpair : rankRel (cooc g seed) t u := by
      have := hsorted
      rw [← List.take_append_drop (m - 1) (rankedCovisited g seed)] at this
      exact (List.pairwise_append.mp this).2.2 t htK u huD
    have htu : t ≠ u := by
      intro h
      subst h
      have hDnodup := (rankedCovisited_nodup g seed)
      rw [← List.take_append_drop (m - 1) (rankedCovisited g seed)] at hDnodup
      exact (List.disjoint_of_nodup_append hDnodup) htK huD
    rcases hpair with h | ⟨h1, h2⟩
    · exact Or.inl h
    · exact Or.inr ⟨h1.symm, lt_of_le_of_ne h2 htu⟩

/-- Witness for C4 at the concrete scenario graph, seed 0, m = 2. -/
theorem c4_find_closest_repos_witness :
    1 ≤ 2 ∧
    (0 ∈ find_closest_repos gScenario 0 2 ∧
      (find_closest_repos gScenario 0 2).card ≤ 2 ∧
      (2 - 1 ≤ (covisited gScenario 0).card →
        (find_closest_repos gScenario 0 2).card = 2) ∧
      ((covisited gScenario 0).card < 2 - 1 →
        find_closest_repos gScenario 0 2 = insert 0 (covisited gScenario 0)) ∧
      (∀ t ∈ find_closest_repos gScenario 0 2, t ≠ 0 →
        ∀ u ∈ covisited gScenario 0, u ∉ find_closest_repos gScenario 0 2 →
          cooc gScenario 0 u < cooc gScenario 0 t ∨
            (cooc gScenario 0 u = cooc gScenario 0 t ∧ t < u))) :=
  ⟨by decide, c4_find_closest_repos gScenario 0 2 (by decide)⟩

/-! ### C6 -/

/-- When nothing in `rest` is mergeable with a kept result or with an
earlier element of `rest`, the dedup pass keeps everything. -/
lemma dedupAux_of_fresh :
    ∀ (rest acc : List CResult),
      (∀ r ∈ rest, ∀ s ∈ acc, ¬ mergeable r s) →
      List.Pairwise (fun a b => ¬ mergeable b a) rest →
      dedupAux acc rest = acc.reverse ++ rest := by
  intro rest
  induction rest with
  | nil => intro acc _ _; simp [dedupAux]
  | cons r rest ih =>
    intro acc hfresh hpw
    have hany : (acc.any (fun s => decide (mergeable r s))) = false := by
      rw [List.any_eq_false]
      intro s hs
      simp only [decide_eq_true_eq]
      exact hfresh r (List.mem_cons_self r rest) s hs
    rw [dedupAux, hany]
    simp only [Bool.false_eq_true, if_false]
    rw [ih (r :: acc) ?_ (List.Pairwise.of_cons hpw)]
    · simp
    · intro u hu s hs
      rcases List.mem_cons.mp hs with h | h
      · subst h
        exact (List.rel_of_pairwise_cons hpw hu : ¬ mergeable u s)
      · exact hfresh u (List.mem_cons_of_mem r hu) s h

/-- Every output of the dedup pass is pairwise non-mergeable (no later kept
result merges with an earlier one). -/
lemma dedupAux_pairwise :
    ∀ (rest acc : List CResult),
      List.Pairwise (fun a b => ¬ mergeable b a) acc.reverse →
      List.Pairwise (fun a b => ¬ mergeable b a) (dedupAux acc rest) := by
  intro rest
  induction rest with
  | nil => intro acc h; rw [dedupAux]; exact h
  | cons r rest ih =>
    intro acc hacc
    rw [dedupAux]
    by_cases hany : (acc.any (fun s => decide (mergeable r s))) = true
    · rw [hany]
      simp only [if_true]
      exact ih acc hacc
    · rw [Bool.not_eq_true] at hany
      rw [hany]
      simp only [Bool.false_eq_true, if_false]
      refine ih (r :: acc) ?_
      rw [List.reverse_cons]
      rw [List.pairwise_append]
      refine ⟨hacc, List.pairwise_singleton _ _, ?_⟩
      intro a ha b hb
      rw [List.mem_singleton] at hb
      subst hb
      rw [List.any_eq_false] at hany
      have := hany a (List.mem_reverse.mp ha)
      simpa using this

/-- C6: ResultDedup is idempotent: deduplicating an already-deduplicated
result list merges nothing further. -/
theorem c6_dedup_idempotent (l : List CResult) :
    resultDedup (resultDedup l) = resultDedup l := by
  have hpw : List.Pairwise (fun a b => ¬ mergeable b a) (resultDedup l) :=
    dedupAux_pairwise l [] (by simp)
  show dedupAux [] (resultDedup l) = resultDedup l
  rw [dedupAux_of_fresh (resultDedup l) [] (by simp) hpw]
  simp

/-! ### C7 -/

/-- C7: `run_all` with `n_jobs = 1` is deterministic: two runs over the
same graph and parameters whose seed order is the default one (one seed per
distinct target, ascending target id — no explicit random seed) produce
identical cluster sequences. -/
theorem c7_run_all_deterministic (g : Graph) (p : CopyCatchParams)
    (o1 o2 : List ℕ) (h1 : o1 = defaultSeedOrder g) (h2 : o2 = defaultSeedOrder g) :
    run_all g p o1 = run_all g p o2 := by
  rw [h1, h2]

/-- Witness for C7 at the concrete scenario. -/
theorem c7_run_all_deterministic_witness :
    run_all gScenario pScenario [0, 1] = run_all gScenario pScenario [0, 1] :=
  c7_run_all_deterministic gScenario pScenario [0, 1] [0, 1] (by decide) (by decide)

/-! ### C8 -/

/-- C8: `GraphIndex.build` never fails on a malformed row: every row
lacking an actor, a target, or a parseable non-negative timestamp is
dropped and processing continues, so the built index equals the one built
from the subsequence of well-formed rows; and a row fails to parse exactly
when a field is missing or its timestamp is negative. -/
theorem c8_build_drops_malformed (rows : List RawRow) :
    GraphIndex.build rows = GraphIndex.buildWF (rows.filterMap parseRow) ∧
    (∀ row : RawRow, parseRow row = none ↔
      row.actor = none ∨ row.target = none ∨ row.ts = none ∨
        ∃ t, row.ts = some t ∧ t < 0) := by
  constructor
  · unfold GraphIndex.build GraphIndex.buildWF
    generalize GraphIndex.empty = gi
    induction rows generalizing gi with
    | nil => rfl
    | cons row rows ih =>
      rw [List.foldl_cons, List.filterMap_cons]
      cases hp : parseRow row with
      | none => exact ih gi
      | some e => rw [List.foldl_cons]; exact ih (gi.ingest e)
  · intro row
    obtain ⟨oa, ot, ots⟩ := row
    rcases oa with - | a <;> rcases ot with - | t <;> rcases ots with - | ts
    · simp [parseRow]
    · simp [parseRow]
    · simp [parseRow]
    · simp [parseRow]
    · simp [parseRow]
    · simp [parseRow]
    · simp [parseRow]
    · simp only [parseRow]
      constructor
      · intro h
        split at h
        · cases h
        · next hneg => exact Or.inr (Or.inr (Or.inr ⟨ts, rfl, by omega⟩))
      · rintro (h | h | h | ⟨t0, ht0, hlt⟩)
        · cases h
        · cases h
        · cases h
        · have hts : ts = t0 := Option.some.inj ht0
          subst hts
          rw [if_neg (by omega)]

/-! ### C10 -/

/-- C10: `get_github_readme` and `get_repo_size` never propagate a failure
of the GitHub call to the caller: when the call raises they return `none`,
and when it succeeds they return the README content, respectively the
repository size. -/
theorem c10_github_helpers_never_raise (rf : String → Except String String)
    (sf : String → Except String ℕ) (repo : String) :
    (∀ e, rf repo = Except.error e → get_github_readme rf repo = none) ∧
    (∀ c, rf repo = Except.ok c → get_github_readme rf repo = some c) ∧
    (∀ e, sf repo = Except.error e → get_repo_size sf repo = none) ∧
    (∀ s, sf repo = Except.ok s → get_repo_size sf repo = some s) := by
  unfold get_github_readme get_repo_size
  exact ⟨fun e he => by rw [he], fun c hc => by rw [hc],
    fun e he => by rw [he], fun s hs => by rw [hs]⟩

end FakeStarDetector
